import Mathlib

/-!
Verification development for the markdown-to-page compiler in
`scripts/publish.ts`.  The TypeScript source is shallowly embedded:
pure string helpers become Lean functions on `List Char`/`String`,
the stateful block parser becomes an explicit state record transformed
per line by a `step` function, and the JavaScript regular expressions
used by the source are modelled by executable scanning functions with
the same matching semantics (lazy/greedy quantifiers, global
continuation after a match, `.` not matching line terminators).
Rendered JSX markup is abstracted into a `Block` datatype carrying the
same payload data that the source interpolates into its templates.
-/

set_option maxRecDepth 10000

namespace Publish

/-- The backtick character, used by markdown fences and inline code. -/
def btick : Char := Char.ofNat 96

/-- JavaScript `\s` (whitespace class), as used by `trim`, `\s+`, `split(/\s+/)`. -/
def isJsWs (c : Char) : Bool :=
  c = ' ' || c = '\t' || c = '\n' || c = '\r' || c = '\x0b' || c = '\x0c' ||
  c = ' ' || c.val = 0x1680 || (0x2000 ≤ c.val && c.val ≤ 0x200a) ||
  c.val = 0x2028 || c.val = 0x2029 || c.val = 0x202f || c.val = 0x205f ||
  c.val = 0x3000 || c.val = 0xfeff

/-- JavaScript `.` (without the `s` flag): any character except line terminators. -/
def isDot (c : Char) : Bool :=
  !(c = '\n' || c = '\r' || c.val = 0x2028 || c.val = 0x2029)

/-- JavaScript `\w`: ASCII alphanumerics and underscore. -/
def isWordCh (c : Char) : Bool :=
  ('a' ≤ c && c ≤ 'z') || ('A' ≤ c && c ≤ 'Z') || ('0' ≤ c && c ≤ '9') || c = '_'

/-- ASCII lower-casing, the behaviour of `toLowerCase` on the characters involved. -/
def jsToLower (c : Char) : Char :=
  if 'A' ≤ c ∧ c ≤ 'Z' then Char.ofNat (c.toNat + 32) else c

/-- `toLowerCase` on a string. -/
def lowerStr (s : String) : String := ⟨s.data.map jsToLower⟩

/-- Boolean prefix test on character lists. -/
def isPre : List Char → List Char → Bool
  | [], _ => true
  | _ :: _, [] => false
  | a :: ps, b :: ss => a = b && isPre ps ss

/-- JavaScript `String.prototype.startsWith`. -/
def startsWithStr (p s : String) : Bool := isPre p.data s.data

/-- JavaScript `String.prototype.endsWith`. -/
def endsWithStr (p s : String) : Bool := isPre p.data.reverse s.data.reverse

/-- Drop a trailing run of characters satisfying `p` (structural version). -/
def dropTrailWhile (p : Char → Bool) : List Char → List Char
  | [] => []
  | c :: cs =>
    let r := dropTrailWhile p cs
    if r = [] ∧ p c then [] else c :: r

/-- JavaScript `String.prototype.trim` on a character list. -/
def jsTrimList (l : List Char) : List Char :=
  ((l.dropWhile isJsWs).reverse.dropWhile isJsWs).reverse

/-- JavaScript `String.prototype.trim`. -/
def jsTrim (s : String) : String := ⟨jsTrimList s.data⟩

/-- JavaScript `String.prototype.slice(n)` (for the `line.slice(k)` calls). -/
def strDrop (s : String) (n : Nat) : String := ⟨s.data.drop n⟩

/-- JavaScript `String.prototype.split` with a single-character separator. -/
def splitCharAux (sep : Char) : List Char → List Char → List String
  | [], acc => [⟨acc.reverse⟩]
  | c :: cs, acc =>
    if c = sep then ⟨acc.reverse⟩ :: splitCharAux sep cs []
    else splitCharAux sep cs (c :: acc)

/-- `s.split(sep)` for a one-character separator `sep`. -/
def splitChar (sep : Char) (s : String) : List String := splitCharAux sep s.data []

/-- JavaScript `Array.prototype.join(sep)`. -/
def joinSep (sep : String) : List String → String
  | [] => ""
  | [x] => x
  | x :: xs => x ++ sep ++ joinSep sep xs

/-- Index of the first occurrence of `pat` in `cs`, if any (leftmost regex match). -/
def findSub (pat : List Char) : List Char → Option Nat
  | [] => if pat = [] then some 0 else none
  | c :: rest =>
    if isPre pat (c :: rest) then some 0
    else (findSub pat rest).map (· + 1)

/--
Lazy search for `content ++ d ++ rest` with `content` nonempty, all characters of
`content` satisfying `p`, and `content` as short as possible.  This is the
behaviour of a lazy group such as `(.+?)` (or `([^X]+)`) followed by the closing
delimiter `d` in a JavaScript regex.
-/
def findLazy (d : List Char) (p : Char → Bool) : List Char → Option (List Char × List Char)
  | [] => none
  | c :: cs =>
    if p c then
      if isPre d cs then some ([c], cs.drop d.length)
      else
        match findLazy d p cs with
        | some (content, rest) => some (c :: content, rest)
        | none => none
    else none

/--
Global regex replacement of `d ++ content ++ d` by `content` (delimiter
stripping), where `content` is a nonempty lazy run of characters satisfying `p`.
Models `text.replace(/D(.+?)D/g, "$1")` and `text.replace(/`([^`]+)`/g, "$1")`.
The `Nat` argument is recursion fuel; it is instantiated with the length of the
input, which always suffices since every step consumes at least one character.
-/
def replacePairF (d : List Char) (p : Char → Bool) : Nat → List Char → List Char
  | 0, s => s
  | _ + 1, [] => []
  | f + 1, c :: rest =>
    if isPre d (c :: rest) then
      match findLazy d p ((c :: rest).drop d.length) with
      | some (content, after) => content ++ replacePairF d p f after
      | none => c :: replacePairF d p f rest
    else c :: replacePairF d p f rest

/-- Global delimiter-stripping replacement (see `replacePairF`). -/
def replacePair (d : List Char) (p : Char → Bool) (s : List Char) : List Char :=
  replacePairF d p s.length s

/-- The `stripInline` helper of `markdownToReactElements`: removes the eight
inline markers (`***`, `**`, `__`, `*`, `_`, backtick, `~~`, `==`) in the same
order as the source's chained `replace` calls, keeping the inner text. -/
def stripInline (s : String) : String :=
  let l1 := replacePair ['*', '*', '*'] isDot s.data
  let l2 := replacePair ['*', '*'] isDot l1
  let l3 := replacePair ['_', '_'] isDot l2
  let l4 := replacePair ['*'] isDot l3
  let l5 := replacePair ['_'] isDot l4
  let l6 := replacePair [btick] (fun c => !(c = btick)) l5
  let l7 := replacePair ['~', '~'] isDot l6
  let l8 := replacePair ['=', '='] isDot l7
  ⟨l8⟩

/-- Replace each maximal whitespace run by a single hyphen
(`.replace(/\s+/g, "-")`); the flag records whether the previous character
was whitespace. -/
def wsRunsToHyphen (prevWs : Bool) : List Char → List Char
  | [] => []
  | c :: cs =>
    if isJsWs c then
      if prevWs then wsRunsToHyphen true cs else '-' :: wsRunsToHyphen true cs
    else c :: wsRunsToHyphen false cs

/-- Collapse each maximal hyphen run to a single hyphen (the `-+` to `-`
global replacement of `slugify`). -/
def collapseHyphens (prevH : Bool) : List Char → List Char
  | [] => []
  | c :: cs =>
    if c = '-' then
      if prevH then collapseHyphens true cs else '-' :: collapseHyphens true cs
    else c :: collapseHyphens false cs

/-- Remove one leading hyphen (`^-` alternative of `.replace(/^-|-$/g, "")`). -/
def stripLeadHyphen (l : List Char) : List Char :=
  if l.head? = some '-' then l.tail else l

/-- Remove one trailing hyphen (`-$` alternative of `.replace(/^-|-$/g, "")`). -/
def stripTrailHyphen (l : List Char) : List Char :=
  if l.getLast? = some '-' then l.dropLast else l

/-- The `slugify` function of `publish.ts`: lower-case, keep only `[\w\s-]`,
whitespace runs to single hyphens, collapse hyphen runs, trim, then remove one
leading and one trailing hyphen. -/
def slugify (text : String) : String :=
  let l1 := text.data.map jsToLower
  let l2 := l1.filter (fun c => isWordCh c || isJsWs c || c = '-')
  let l3 := wsRunsToHyphen false l2
  let l4 := collapseHyphens false l3
  let l5 := jsTrimList l4
  ⟨stripTrailHyphen (stripLeadHyphen l5)⟩

/-- The three-backtick fence marker. -/
def fenceMarks : List Char := [btick, btick, btick]

/-- Global removal of fenced code blocks, modelling
`.replace(/```[\s\S]*?```/g, "")` (lazy content, may span lines, an opening
fence without a closing one is left in place).  Fueled like `replacePairF`. -/
def removeFencedF : Nat → List Char → List Char
  | 0, s => s
  | _ + 1, [] => []
  | f + 1, c :: rest =>
    if isPre fenceMarks (c :: rest) then
      match findSub fenceMarks ((c :: rest).drop 3) with
      | some i => removeFencedF f (((c :: rest).drop 3).drop (i + 3))
      | none => c :: removeFencedF f rest
    else c :: removeFencedF f rest

/-- Count maximal runs of non-whitespace characters: the length of
`split(/\s+/).filter(w => w.length > 0)`. -/
def countTokens (inWord : Bool) : List Char → Nat
  | [] => 0
  | c :: cs =>
    if isJsWs c then countTokens false cs
    else (if inWord then 0 else 1) + countTokens true cs

/-- The markdown punctuation characters stripped by `countWords`
(the class ``[#*_~`>\-|]``). -/
def punctChars : List Char := ['#', '*', '_', '~', btick, '>', '-', '|']

/-- The `countWords` function of `publish.ts`: drop fenced code blocks, replace
markdown punctuation by spaces, split on whitespace, count nonempty tokens. -/
def countWords (text : String) : Nat :=
  countTokens false
    ((removeFencedF text.data.length text.data).map
      (fun c => if punctChars.contains c then ' ' else c))

/-- One `key: value` frontmatter line: split on `":"`, require a nonempty key
part and at least one colon, then trim the key and the rejoined value. -/
def parseMetaLine (line : String) : Option (String × String) :=
  match splitChar ':' line with
  | [] => none
  | [_] => none
  | k :: rest => if k ≠ "" then some (jsTrim k, jsTrim (joinSep ":" rest)) else none

/-- JavaScript object property assignment `meta[k] = v` on an insertion-ordered
key-value list: overwrite the existing binding of `k`, else append. -/
def upsert : List (String × String) → String → String → List (String × String)
  | [], k, v => [(k, v)]
  | p :: ps, k, v => if p.1 = k then (k, v) :: ps else p :: upsert ps k v

/-- The `forEach` loop of `extractFrontmatter` building the `meta` object. -/
def metaOf (ls : List String) : List (String × String) :=
  ls.foldl
    (fun m l =>
      match parseMetaLine l with
      | some kv => upsert m kv.1 kv.2
      | none => m)
    []

/-- Property lookup on the key-value list. -/
def lookupMeta : List (String × String) → String → Option String
  | [], _ => none
  | p :: ps, k => if p.1 = k then some p.2 else lookupMeta ps k

/-- The `extractFrontmatter` function: the document must start with `---\n`;
the metadata region is everything up to the first `\n---\n` (lazy `[\s\S]*?`),
the body is everything after it.  On no match, empty metadata and the whole
input as body. -/
def extractFrontmatter (content : String) : List (String × String) × String :=
  if isPre ("---\n").data content.data then
    let rest := content.data.drop 4
    match findSub ("\n---\n").data rest with
    | some i => (metaOf (splitChar '\n' ⟨rest.take i⟩), ⟨rest.drop (i + 5)⟩)
    | none => ([], content)
  else ([], content)

/-- A list item: plain content, or a task checkbox item. -/
inductive ListItem
  | plain (text : String)
  | task (checked : Bool) (text : String)
  deriving DecidableEq

/-- One emitted content block.  Each constructor corresponds to one
`elements.push(...)` site of `markdownToReactElements`, carrying the data the
source interpolates into the pushed JSX template (inline rendering and styling
are abstracted away; `heading` stores the raw heading text together with the
computed id). -/
inductive Block
  | para (text : String)
  | code (lang : String) (content : String)
  | mermaid (content : String)
  | heading (level : Nat) (id : String) (text : String)
  | rule
  | listB (ordered : Bool) (items : List ListItem)
  | blockquote (text : String)
  | table (headers : List String) (aligns : List String) (rows : List (List String))
  deriving DecidableEq

/-- One heading outline entry (`{ level, text, id }`). -/
structure HEntry where
  level : Nat
  text : String
  id : String
  deriving DecidableEq

/-- The result record of `markdownToReactElements` (the `html` string is kept
as the ordered block list). -/
structure ParseResult where
  elements : List Block
  hasMermaid : Bool
  hasPrism : Bool
  headings : List HEntry
  deriving DecidableEq

/-- The mutable local state of `markdownToReactElements`, one field per local
variable of the source. -/
structure PState where
  elements : List Block
  inCodeBlock : Bool
  codeContent : List String
  codeLang : String
  inList : Bool
  listItems : List String
  listOrdered : Bool
  inBlockquote : Bool
  blockquoteLines : List String
  skippedFirstH1 : Bool
  hasMermaid : Bool
  hasPrism : Bool
  inTable : Bool
  tableHeaders : List String
  tableAligns : List String
  tableRows : List (List String)
  paragraphBuffer : List String
  headings : List HEntry
  deriving DecidableEq

/-- The initial parser state (`listType` starts as `"ul"`, i.e. unordered). -/
def initState : PState :=
  { elements := [], inCodeBlock := false, codeContent := [], codeLang := ""
    inList := false, listItems := [], listOrdered := false
    inBlockquote := false, blockquoteLines := []
    skippedFirstH1 := false, hasMermaid := false, hasPrism := false
    inTable := false, tableHeaders := [], tableAligns := [], tableRows := []
    paragraphBuffer := [], headings := [] }

/-- The task-list checkbox pattern `[ ]`/`[x]`/`[X]` followed by whitespace. -/
def checkMatch (item : String) : Option (Bool × String) :=
  match item.data with
  | '[' :: c :: ']' :: rest =>
    if c = ' ' ∨ c = 'x' ∨ c = 'X' then
      match rest with
      | r :: _ =>
        if isJsWs r then
          some (decide (c ≠ ' '), ⟨(rest.dropWhile isJsWs).takeWhile isDot⟩)
        else none
      | [] => none
    else none
  | _ => none

/-- Turn a raw list-item line into the rendered item (checkbox support). -/
def parseListItem (item : String) : ListItem :=
  match checkMatch item with
  | some (ck, text) => ListItem.task ck text
  | none => ListItem.plain item

/-- The block a pending paragraph buffer would flush to (lines joined by a
single space), if nonempty. -/
def paraPending (s : PState) : List Block :=
  if s.paragraphBuffer = [] then [] else [Block.para (joinSep " " s.paragraphBuffer)]

/-- The block a pending list would flush to, if open. -/
def listPending (s : PState) : List Block :=
  if s.inList then [Block.listB s.listOrdered (s.listItems.map parseListItem)] else []

/-- The block a pending blockquote would flush to (lines joined by a single
space), if open. -/
def bqPending (s : PState) : List Block :=
  if s.inBlockquote then [Block.blockquote (joinSep " " s.blockquoteLines)] else []

/-- The block a pending table would flush to, if open. -/
def tablePending (s : PState) : List Block :=
  if s.inTable then [Block.table s.tableHeaders s.tableAligns s.tableRows] else []

/-- `flushParagraph()`. -/
def flushParagraph (s : PState) : PState :=
  if s.paragraphBuffer = [] then s
  else
    { s with elements := s.elements ++ [Block.para (joinSep " " s.paragraphBuffer)]
             paragraphBuffer := [] }

/-- `flushList()` (note: `listType` is not reset). -/
def flushList (s : PState) : PState :=
  if s.inList then
    { s with elements := s.elements ++ [Block.listB s.listOrdered (s.listItems.map parseListItem)]
             listItems := [], inList := false }
  else s

/-- `flushBlockquote()`. -/
def flushBlockquote (s : PState) : PState :=
  if s.inBlockquote then
    { s with elements := s.elements ++ [Block.blockquote (joinSep " " s.blockquoteLines)]
             blockquoteLines := [], inBlockquote := false }
  else s

/-- `flushTable()`. -/
def flushTable (s : PState) : PState :=
  if s.inTable then
    { s with elements := s.elements ++ [Block.table s.tableHeaders s.tableAligns s.tableRows]
             tableHeaders := [], tableAligns := [], tableRows := [], inTable := false }
  else s

/-- The table row pattern: a pipe, at least one character (no line
terminators), a closing pipe; cells are the split-and-trimmed interior. -/
def tableRowMatch (line : String) : Option (List String) :=
  if line.data.head? = some '|' then
    let rest := line.data.tail
    if rest.getLast? = some '|' then
      let mid := rest.dropLast
      if mid ≠ [] ∧ mid.all isDot then some ((splitChar '|' ⟨mid⟩).map jsTrim)
      else none
    else none
  else none

/-- One alignment-separator cell: optional colon, dashes, optional colon. -/
def isSepCell (c : String) : Bool :=
  let cs := c.data
  let cs1 := if cs.head? = some ':' then cs.tail else cs
  let dashes := cs1.takeWhile (· = '-')
  let rest := cs1.drop dashes.length
  decide (dashes ≠ []) && decide (rest = [] ∨ rest = [':'])

/-- Alignment of one separator cell: both colons → center, trailing colon
only → right, else left. -/
def alignOf (c : String) : String :=
  if startsWithStr ":" c && endsWithStr ":" c then "center"
  else if endsWithStr ":" c then "right"
  else "left"

/-- The tail `\s+(.+)$` of the heading and list-item patterns: at least one
whitespace character, then the (greedy, line-terminator-free) item text.  When
everything after the marker is whitespace, backtracking leaves the final
whitespace character as the text, provided `.` can match it. -/
def wsPlusDotRest (rest : List Char) : Option String :=
  match rest.head? with
  | some r =>
    if isJsWs r then
      let text := rest.dropWhile isJsWs
      if text ≠ [] then
        if text.all isDot then some ⟨text⟩ else none
      else if 2 ≤ rest.length ∧ (rest.getLast?.map isDot).getD false then
        some ⟨(rest.getLast?.map (fun c => [c])).getD []⟩
      else none
    else none
  | none => none

/-- The heading pattern: one to six `#`, whitespace, text. -/
def headingMatch (line : String) : Option (Nat × String) :=
  let n := (line.data.takeWhile (· = '#')).length
  if 1 ≤ n ∧ n ≤ 6 then (wsPlusDotRest (line.data.drop n)).map (fun t => (n, t))
  else none

/-- The thematic-break test: the trimmed line is three or more repeated `-`,
`*`, or `_`. -/
def isHr (line : String) : Bool :=
  let t := (jsTrim line).data
  decide (3 ≤ t.length) && (t.all (· = '-') || t.all (· = '*') || t.all (· = '_'))

/-- The unordered list item pattern: optional whitespace, `-`/`*`/`+`,
whitespace, text. -/
def ulMatch (line : String) : Option String :=
  let cs := line.data.dropWhile isJsWs
  match cs.head? with
  | some c =>
    if c = '-' ∨ c = '*' ∨ c = '+' then wsPlusDotRest cs.tail else none
  | none => none

/-- The ordered list item pattern: optional whitespace, digits, a dot,
whitespace, text. -/
def olMatch (line : String) : Option String :=
  let cs := line.data.dropWhile isJsWs
  let ds := cs.takeWhile (fun c => '0' ≤ c ∧ c ≤ '9')
  if ds ≠ [] ∧ (cs.drop ds.length).head? = some '.' then
    wsPlusDotRest (cs.drop (ds.length + 1))
  else none

/-- JavaScript truthiness of the optional `skipTitle` parameter. -/
def truthy : Option String → Bool
  | none => false
  | some t => t ≠ ""

/-- The skip-title condition guarding the silent drop of a heading: level 1,
nothing skipped yet, a truthy `skipTitle`, and a case-insensitive match of the
stripped, trimmed heading text. -/
def skipCond (k : Option String) (s : PState) (level : Nat) (raw : String) : Bool :=
  (level == 1) && !s.skippedFirstH1 && truthy k &&
    (lowerStr (jsTrim (stripInline raw)) == lowerStr (k.getD ""))

/-- One iteration of the line loop of `markdownToReactElements`: classify the
line exactly as the source does (code fences, in-code accumulation, table
rows, blockquotes, headings, rules, list items, blank lines, paragraph
accumulation) and update the state. -/
def step (k : Option String) (s : PState) (line : String) : PState :=
  if startsWithStr "```" line then
    if s.inCodeBlock then
      if (flushParagraph s).codeLang = "mermaid" then
        { flushParagraph s with
          elements := (flushParagraph s).elements ++
            [Block.mermaid (joinSep "\n" (flushParagraph s).codeContent)]
          hasMermaid := true, codeContent := [], codeLang := "", inCodeBlock := false }
      else
        { flushParagraph s with
          elements := (flushParagraph s).elements ++
            [Block.code (flushParagraph s).codeLang (joinSep "\n" (flushParagraph s).codeContent)]
          hasPrism := (flushParagraph s).hasPrism || decide ((flushParagraph s).codeLang ≠ "")
          codeContent := [], codeLang := "", inCodeBlock := false }
    else
      { flushTable (flushBlockquote (flushList (flushParagraph s))) with
        codeLang := jsTrim (strDrop line 3), inCodeBlock := true }
  else if s.inCodeBlock then
    { s with codeContent := s.codeContent ++ [line] }
  else
    match tableRowMatch line with
    | some cells =>
      let s1 := flushBlockquote (flushList (flushParagraph s))
      if cells.all isSepCell then
        { s1 with tableAligns := cells.map alignOf }
      else if s1.inTable then
        { s1 with tableRows := s1.tableRows ++ [cells] }
      else
        { s1 with inTable := true, tableHeaders := cells }
    | none =>
      let s1 := flushTable s
      if startsWithStr "> " line then
        let s2 := flushList (flushParagraph s1)
        { s2 with inBlockquote := true
                  blockquoteLines := s2.blockquoteLines ++ [strDrop line 2] }
      else if s1.inBlockquote && startsWithStr ">" line then
        { s1 with blockquoteLines := s1.blockquoteLines ++ [jsTrim (strDrop line 1)] }
      else
        let s2 := flushBlockquote s1
        match headingMatch line with
        | some (level, raw) =>
          let s3 := flushList (flushParagraph s2)
          if skipCond k s3 level raw then
            { s3 with skippedFirstH1 := true }
          else
            { s3 with
              headings := s3.headings ++
                [⟨level, stripInline raw, slugify (stripInline raw)⟩]
              elements := s3.elements ++
                [Block.heading level (slugify (stripInline raw)) raw] }
        | none =>
          if isHr line then
            let s3 := flushList (flushParagraph s2)
            { s3 with elements := s3.elements ++ [Block.rule] }
          else
            match ulMatch line with
            | some item =>
              let s3 := flushParagraph s2
              let s4 := if !s3.inList || s3.listOrdered then flushList s3 else s3
              { s4 with inList := true, listOrdered := false
                        listItems := s4.listItems ++ [item] }
            | none =>
              match olMatch line with
              | some item =>
                let s3 := flushParagraph s2
                let s4 := if !s3.inList || !s3.listOrdered then flushList s3 else s3
                { s4 with inList := true, listOrdered := true
                          listItems := s4.listItems ++ [item] }
              | none =>
                let s3 := flushList s2
                if jsTrim line = "" then flushParagraph s3
                else { s3 with paragraphBuffer := s3.paragraphBuffer ++ [line] }

/-- The end-of-input flushes, in source order: paragraph, list, blockquote,
table. -/
def finalizeState (s : PState) : PState :=
  flushTable (flushBlockquote (flushList (flushParagraph s)))

/-- Project the returned record out of the final state. -/
def mkResult (s : PState) : ParseResult :=
  { elements := s.elements, hasMermaid := s.hasMermaid
    hasPrism := s.hasPrism, headings := s.headings }

/-- The `markdownToReactElements` function: split on newlines, run the line
loop from the initial state, flush at end of input. -/
def markdownToReactElements (md : String) (skipTitle : Option String) : ParseResult :=
  mkResult (finalizeState ((splitChar '\n' md).foldl (step skipTitle) initState))

/-- The fence discipline of the source, isolated: scan the lines, a fence line
opens a block capturing its language tag, the next fence line closes it and
yields the tag.  `fenceScan o ls` returns the tags of all fenced code blocks
closed while processing `ls` from fence state `o`. -/
def fenceScan : Option String → List String → List String
  | _, [] => []
  | none, l :: ls =>
    if startsWithStr "```" l then fenceScan (some (jsTrim (strDrop l 3))) ls
    else fenceScan none ls
  | some lang, l :: ls =>
    if startsWithStr "```" l then lang :: fenceScan none ls
    else fenceScan (some lang) ls

/-- The language tags of the fenced code blocks of a document. -/
def fencedLangs (md : String) : List String := fenceScan none (splitChar '\n' md)

/-- The table-of-contents gate of `generatePageCode`: present exactly when the
outline of the parse (run with the page title as the skip title) has at least
three entries. -/
def hasToc (body : String) (title : String) : Bool :=
  decide (3 ≤ (markdownToReactElements body (some title)).headings.length)

/-- Count the heading blocks among emitted elements. -/
def countHB (l : List Block) : Nat :=
  l.countP (fun b => match b with | Block.heading _ _ _ => true | _ => false)

/-! Field-level description of the four flush helpers, used pervasively in the
proofs below. -/

@[simp] theorem flushParagraph_elements (s : PState) : (flushParagraph s).elements = s.elements ++ paraPending s := by unfold flushParagraph paraPending; split <;> simp_all

@[simp] theorem flushParagraph_inCodeBlock (s : PState) : (flushParagraph s).inCodeBlock = s.inCodeBlock := by unfold flushParagraph; split <;> rfl

@[simp] theorem flushParagraph_codeContent (s : PState) : (flushParagraph s).codeContent = s.codeContent := by unfold flushParagraph; split <;> rfl

@[simp] theorem flushParagraph_codeLang (s : PState) : (flushParagraph s).codeLang = s.codeLang := by unfold flushParagraph; split <;> rfl

@[simp] theorem flushParagraph_inList (s : PState) : (flushParagraph s).inList = s.inList := by unfold flushParagraph; split <;> rfl

@[simp] theorem flushParagraph_listItems (s : PState) : (flushParagraph s).listItems = s.listItems := by unfold flushParagraph; split <;> rfl

@[simp] theorem flushParagraph_listOrdered (s : PState) : (flushParagraph s).listOrdered = s.listOrdered := by unfold flushParagraph; split <;> rfl

@[simp] theorem flushParagraph_inBlockquote (s : PState) : (flushParagraph s).inBlockquote = s.inBlockquote := by unfold flushParagraph; split <;> rfl

@[simp] theorem flushParagraph_blockquoteLines (s : PState) : (flushParagraph s).blockquoteLines = s.blockquoteLines := by unfold flushParagraph; split <;> rfl

@[simp] theorem flushParagraph_skippedFirstH1 (s : PState) : (flushParagraph s).skippedFirstH1 = s.skippedFirstH1 := by unfold flushParagraph; split <;> rfl

@[simp] theorem flushParagraph_hasMermaid (s : PState) : (flushParagraph s).hasMermaid = s.hasMermaid := by unfold flushParagraph; split <;> rfl

@[simp] theorem flushParagraph_hasPrism (s : PState) : (flushParagraph s).hasPrism = s.hasPrism := by unfold flushParagraph; split <;> rfl

@[simp] theorem flushParagraph_inTable (s : PState) : (flushParagraph s).inTable = s.inTable := by unfold flushParagraph; split <;> rfl

@[simp] theorem flushParagraph_tableHeaders (s : PState) : (flushParagraph s).tableHeaders = s.tableHeaders := by unfold flushParagraph; split <;> rfl

@[simp] theorem flushParagraph_tableAligns (s : PState) : (flushParagraph s).tableAligns = s.tableAligns := by unfold flushParagraph; split <;> rfl

@[simp] theorem flushParagraph_tableRows (s : PState) : (flushParagraph s).tableRows = s.tableRows := by unfold flushParagraph; split <;> rfl

@[simp] theorem flushParagraph_paragraphBuffer (s : PState) : (flushParagraph s).paragraphBuffer = ([] : List String) := by unfold flushParagraph; split <;> simp_all

@[simp] theorem flushParagraph_headings (s : PState) : (flushParagraph s).headings = s.headings := by unfold flushParagraph; split <;> rfl

@[simp] theorem flushList_elements (s : PState) : (flushList s).elements = s.elements ++ listPending s := by unfold flushList listPending; split <;> simp_all

@[simp] theorem flushList_inCodeBlock (s : PState) : (flushList s).inCodeBlock = s.inCodeBlock := by unfold flushList; split <;> rfl

@[simp] theorem flushList_codeContent (s : PState) : (flushList s).codeContent = s.codeContent := by unfold flushList; split <;> rfl

@[simp] theorem flushList_codeLang (s : PState) : (flushList s).codeLang = s.codeLang := by unfold flushList; split <;> rfl

@[simp] theorem flushList_inList (s : PState) : (flushList s).inList = false := by unfold flushList; split <;> simp_all

@[simp] theorem flushList_listItems (s : PState) : (flushList s).listItems = if s.inList then [] else s.listItems := by unfold flushList; split <;> simp_all

@[simp] theorem flushList_listOrdered (s : PState) : (flushList s).listOrdered = s.listOrdered := by unfold flushList; split <;> rfl

@[simp] theorem flushList_inBlockquote (s : PState) : (flushList s).inBlockquote = s.inBlockquote := by unfold flushList; split <;> rfl

@[simp] theorem flushList_blockquoteLines (s : PState) : (flushList s).blockquoteLines = s.blockquoteLines := by unfold flushList; split <;> rfl

@[simp] theorem flushList_skippedFirstH1 (s : PState) : (flushList s).skippedFirstH1 = s.skippedFirstH1 := by unfold flushList; split <;> rfl

@[simp] theorem flushList_hasMermaid (s : PState) : (flushList s).hasMermaid = s.hasMermaid := by unfold flushList; split <;> rfl

@[simp] theorem flushList_hasPrism (s : PState) : (flushList s).hasPrism = s.hasPrism := by unfold flushList; split <;> rfl

@[simp] theorem flushList_inTable (s : PState) : (flushList s).inTable = s.inTable := by unfold flushList; split <;> rfl

@[simp] theorem flushList_tableHeaders (s : PState) : (flushList s).tableHeaders = s.tableHeaders := by unfold flushList; split <;> rfl

@[simp] theorem flushList_tableAligns (s : PState) : (flushList s).tableAligns = s.tableAligns := by unfold flushList; split <;> rfl

@[simp] theorem flushList_tableRows (s : PState) : (flushList s).tableRows = s.tableRows := by unfold flushList; split <;> rfl

@[simp] theorem flushList_paragraphBuffer (s : PState) : (flushList s).paragraphBuffer = s.paragraphBuffer := by unfold flushList; split <;> rfl

@[simp] theorem flushList_headings (s : PState) : (flushList s).headings = s.headings := by unfold flushList; split <;> rfl

@[simp] theorem flushBlockquote_elements (s : PState) : (flushBlockquote s).elements = s.elements ++ bqPending s := by unfold flushBlockquote bqPending; split <;> simp_all

@[simp] theorem flushBlockquote_inCodeBlock (s : PState) : (flushBlockquote s).inCodeBlock = s.inCodeBlock := by unfold flushBlockquote; split <;> rfl

@[simp] theorem flushBlockquote_codeContent (s : PState) : (flushBlockquote s).codeContent = s.codeContent := by unfold flushBlockquote; split <;> rfl

@[simp] theorem flushBlockquote_codeLang (s : PState) : (flushBlockquote s).codeLang = s.codeLang := by unfold flushBlockquote; split <;> rfl

@[simp] theorem flushBlockquote_inList (s : PState) : (flushBlockquote s).inList = s.inList := by unfold flushBlockquote; split <;> rfl

@[simp] theorem flushBlockquote_listItems (s : PState) : (flushBlockquote s).listItems = s.listItems := by unfold flushBlockquote; split <;> rfl

@[simp] theorem flushBlockquote_listOrdered (s : PState) : (flushBlockquote s).listOrdered = s.listOrdered := by unfold flushBlockquote; split <;> rfl

@[simp] theorem flushBlockquote_inBlockquote (s : PState) : (flushBlockquote s).inBlockquote = false := by unfold flushBlockquote; split <;> simp_all

@[simp] theorem flushBlockquote_blockquoteLines (s : PState) : (flushBlockquote s).blockquoteLines = if s.inBlockquote then [] else s.blockquoteLines := by unfold flushBlockquote; split <;> simp_all

@[simp] theorem flushBlockquote_skippedFirstH1 (s : PState) : (flushBlockquote s).skippedFirstH1 = s.skippedFirstH1 := by unfold flushBlockquote; split <;> rfl

@[simp] theorem flushBlockquote_hasMermaid (s : PState) : (flushBlockquote s).hasMermaid = s.hasMermaid := by unfold flushBlockquote; split <;> rfl

@[simp] theorem flushBlockquote_hasPrism (s : PState) : (flushBlockquote s).hasPrism = s.hasPrism := by unfold flushBlockquote; split <;> rfl

@[simp] theorem flushBlockquote_inTable (s : PState) : (flushBlockquote s).inTable = s.inTable := by unfold flushBlockquote; split <;> rfl

@[simp] theorem flushBlockquote_tableHeaders (s : PState) : (flushBlockquote s).tableHeaders = s.tableHeaders := by unfold flushBlockquote; split <;> rfl

@[simp] theorem flushBlockquote_tableAligns (s : PState) : (flushBlockquote s).tableAligns = s.tableAligns := by unfold flushBlockquote; split <;> rfl

@[simp] theorem flushBlockquote_tableRows (s : PState) : (flushBlockquote s).tableRows = s.tableRows := by unfold flushBlockquote; split <;> rfl

@[simp] theorem flushBlockquote_paragraphBuffer (s : PState) : (flushBlockquote s).paragraphBuffer = s.paragraphBuffer := by unfold flushBlockquote; split <;> rfl

@[simp] theorem flushBlockquote_headings (s : PState) : (flushBlockquote s).headings = s.headings := by unfold flushBlockquote; split <;> rfl

@[simp] theorem flushTable_elements (s : PState) : (flushTable s).elements = s.elements ++ tablePending s := by unfold flushTable tablePending; split <;> simp_all

@[simp] theorem flushTable_inCodeBlock (s : PState) : (flushTable s).inCodeBlock = s.inCodeBlock := by unfold flushTable; split <;> rfl

@[simp] theorem flushTable_codeContent (s : PState) : (flushTable s).codeContent = s.codeContent := by unfold flushTable; split <;> rfl

@[simp] theorem flushTable_codeLang (s : PState) : (flushTable s).codeLang = s.codeLang := by unfold flushTable; split <;> rfl

@[simp] theorem flushTable_inList (s : PState) : (flushTable s).inList = s.inList := by unfold flushTable; split <;> rfl

@[simp] theorem flushTable_listItems (s : PState) : (flushTable s).listItems = s.listItems := by unfold flushTable; split <;> rfl

@[simp] theorem flushTable_listOrdered (s : PState) : (flushTable s).listOrdered = s.listOrdered := by unfold flushTable; split <;> rfl

@[simp] theorem flushTable_inBlockquote (s : PState) : (flushTable s).inBlockquote = s.inBlockquote := by unfold flushTable; split <;> rfl

@[simp] theorem flushTable_blockquoteLines (s : PState) : (flushTable s).blockquoteLines = s.blockquoteLines := by unfold flushTable; split <;> rfl

@[simp] theorem flushTable_skippedFirstH1 (s : PState) : (flushTable s).skippedFirstH1 = s.skippedFirstH1 := by unfold flushTable; split <;> rfl

@[simp] theorem flushTable_hasMermaid (s : PState) : (flushTable s).hasMermaid = s.hasMermaid := by unfold flushTable; split <;> rfl

@[simp] theorem flushTable_hasPrism (s : PState) : (flushTable s).hasPrism = s.hasPrism := by unfold flushTable; split <;> rfl

@[simp] theorem flushTable_inTable (s : PState) : (flushTable s).inTable = false := by unfold flushTable; split <;> simp_all

@[simp] theorem flushTable_tableHeaders (s : PState) : (flushTable s).tableHeaders = if s.inTable then [] else s.tableHeaders := by unfold flushTable; split <;> simp_all

@[simp] theorem flushTable_tableAligns (s : PState) : (flushTable s).tableAligns = if s.inTable then [] else s.tableAligns := by unfold flushTable; split <;> simp_all

@[simp] theorem flushTable_tableRows (s : PState) : (flushTable s).tableRows = if s.inTable then [] else s.tableRows := by unfold flushTable; split <;> simp_all

@[simp] theorem flushTable_paragraphBuffer (s : PState) : (flushTable s).paragraphBuffer = s.paragraphBuffer := by unfold flushTable; split <;> rfl

@[simp] theorem flushTable_headings (s : PState) : (flushTable s).headings = s.headings := by unfold flushTable; split <;> rfl

@[simp] theorem paraPending_flushParagraph (s : PState) : paraPending (flushParagraph s) = [] := by simp [paraPending]

@[simp] theorem paraPending_flushList (s : PState) : paraPending (flushList s) = paraPending s := by simp [paraPending]

@[simp] theorem paraPending_flushBlockquote (s : PState) : paraPending (flushBlockquote s) = paraPending s := by simp [paraPending]

@[simp] theorem paraPending_flushTable (s : PState) : paraPending (flushTable s) = paraPending s := by simp [paraPending]

@[simp] theorem listPending_flushParagraph (s : PState) : listPending (flushParagraph s) = listPending s := by simp [listPending]

@[simp] theorem listPending_flushList (s : PState) : listPending (flushList s) = [] := by simp [listPending]

@[simp] theorem listPending_flushBlockquote (s : PState) : listPending (flushBlockquote s) = listPending s := by simp [listPending]

@[simp] theorem listPending_flushTable (s : PState) : listPending (flushTable s) = listPending s := by simp [listPending]

@[simp] theorem bqPending_flushParagraph (s : PState) : bqPending (flushParagraph s) = bqPending s := by simp [bqPending]

@[simp] theorem bqPending_flushList (s : PState) : bqPending (flushList s) = bqPending s := by simp [bqPending]

@[simp] theorem bqPending_flushBlockquote (s : PState) : bqPending (flushBlockquote s) = [] := by simp [bqPending]

@[simp] theorem bqPending_flushTable (s : PState) : bqPending (flushTable s) = bqPending s := by simp [bqPending]

@[simp] theorem tablePending_flushParagraph (s : PState) : tablePending (flushParagraph s) = tablePending s := by simp [tablePending]

@[simp] theorem tablePending_flushList (s : PState) : tablePending (flushList s) = tablePending s := by simp [tablePending]

@[simp] theorem tablePending_flushBlockquote (s : PState) : tablePending (flushBlockquote s) = tablePending s := by simp [tablePending]

@[simp] theorem tablePending_flushTable (s : PState) : tablePending (flushTable s) = [] := by simp [tablePending]

/-! Behaviour of the end-of-input flushes. -/

@[simp] theorem finalizeState_elements (s : PState) :
    (finalizeState s).elements
      = s.elements ++ paraPending s ++ listPending s ++ bqPending s ++ tablePending s := by
  simp [finalizeState]

@[simp] theorem finalizeState_hasMermaid (s : PState) :
    (finalizeState s).hasMermaid = s.hasMermaid := by
  simp [finalizeState]

@[simp] theorem finalizeState_hasPrism (s : PState) :
    (finalizeState s).hasPrism = s.hasPrism := by
  simp [finalizeState]

@[simp] theorem finalizeState_headings (s : PState) :
    (finalizeState s).headings = s.headings := by
  simp [finalizeState]

@[simp] theorem finalizeState_inCodeBlock (s : PState) :
    (finalizeState s).inCodeBlock = s.inCodeBlock := by
  simp [finalizeState]

@[simp] theorem finalizeState_codeContent (s : PState) :
    (finalizeState s).codeContent = s.codeContent := by
  simp [finalizeState]

/-- The compiler's output record does not depend on the pending code-content
buffer: the end-of-input flushes never emit it. -/
theorem mkResult_finalize_codeContent (s : PState) (X : List String) :
    mkResult (finalizeState { s with codeContent := X }) = mkResult (finalizeState s) := by
  simp [mkResult, paraPending, listPending, bqPending, tablePending]

/-! Reduction of `step` on the various line classes. -/

/-- Inside an open code block, a non-fence line is appended to the pending
code content and nothing else changes. -/
theorem step_incode (k : Option String) (s : PState) (line : String)
    (hf : startsWithStr "```" line = false) (hc : s.inCodeBlock = true) :
    step k s line = { s with codeContent := s.codeContent ++ [line] } := by
  unfold step
  simp [hf, hc]

/-- A fence line seen while a code block is open closes it: the language tag
decides the flags and the emitted block, and the fence state is reset. -/
theorem step_fence_close (k : Option String) (s : PState) (line : String)
    (hf : startsWithStr "```" line = true) (hc : s.inCodeBlock = true) :
    (step k s line).hasMermaid = (s.hasMermaid || decide (s.codeLang = "mermaid"))
      ∧ (step k s line).hasPrism
          = (s.hasPrism || (decide (s.codeLang ≠ "mermaid") && decide (s.codeLang ≠ "")))
      ∧ (step k s line).inCodeBlock = false := by
  unfold step
  simp only [hf, if_true, hc]
  by_cases hl : s.codeLang = "mermaid" <;> simp [hl]

/-- A fence line seen with no code block open flushes everything and opens a
code block capturing the language tag; the flags are unchanged. -/
theorem step_fence_open (k : Option String) (s : PState) (line : String)
    (hf : startsWithStr "```" line = true) (hc : s.inCodeBlock = false) :
    (step k s line).hasMermaid = s.hasMermaid
      ∧ (step k s line).hasPrism = s.hasPrism
      ∧ (step k s line).inCodeBlock = true
      ∧ (step k s line).codeLang = jsTrim (strDrop line 3) := by
  unfold step
  simp [hf, hc]

/-- A non-fence line processed outside a code block never touches the fence
state or the feature flags, and never removes a heading from the outline:
it can only append to `headings`. -/
theorem step_nonfence_frame (k : Option String) (s : PState) (line : String)
    (hf : startsWithStr "```" line = false) (hc : s.inCodeBlock = false) :
    (step k s line).inCodeBlock = false
      ∧ (step k s line).codeLang = s.codeLang
      ∧ (step k s line).hasMermaid = s.hasMermaid
      ∧ (step k s line).hasPrism = s.hasPrism
      ∧ (step k s line).codeContent = s.codeContent := by
  unfold step
  simp only [hf, Bool.false_eq_true, if_false, hc]
  repeat' split
  all_goals simp_all

/-- Processing a blank line outside a code block runs the fall-through chain
`flushTable`, `flushBlockquote`, `flushList`, `flushParagraph`. -/
theorem step_blank (k : Option String) (s : PState) (hc : s.inCodeBlock = false) :
    step k s "" = flushParagraph (flushList (flushBlockquote (flushTable s))) := by
  have h1 : startsWithStr "```" "" = false := by decide
  have h2 : tableRowMatch "" = none := by decide
  have h3 : startsWithStr "> " "" = false := by decide
  have h4 : startsWithStr ">" "" = false := by decide
  have h5 : headingMatch "" = none := by decide
  have h6 : isHr "" = false := by decide
  have h7 : ulMatch "" = none := by decide
  have h8 : olMatch "" = none := by decide
  have h9 : jsTrim "" = "" := by decide
  unfold step
  simp [h1, h2, h3, h4, h5, h6, h7, h8, h9, hc]

/-! Heading lines and how `step` treats them. -/

/-- A line matched by the heading pattern starts with `#`. -/
theorem headingMatch_head (line : String) (level : Nat) (raw : String)
    (h : headingMatch line = some (level, raw)) :
    ∃ cs, line.data = '#' :: cs := by
  unfold headingMatch at h
  by_cases hn : 1 ≤ (line.data.takeWhile (· = '#')).length ∧ (line.data.takeWhile (· = '#')).length ≤ 6
  · obtain ⟨h1, _⟩ := hn
    cases hd : line.data with
    | nil => rw [hd] at h1; simp at h1
    | cons c cs =>
      by_cases hsharp : c = '#'
      · exact ⟨cs, by simp [hd, hsharp]⟩
      · rw [hd] at h1
        simp [List.takeWhile, hsharp] at h1
  · rw [if_neg hn] at h
    cases h

/-- A heading line is not a fence line, a table row, or a blockquote line. -/
theorem heading_not_other (line : String) (cs : List Char) (hd : line.data = '#' :: cs) :
    startsWithStr "```" line = false ∧ tableRowMatch line = none
      ∧ startsWithStr "> " line = false ∧ startsWithStr ">" line = false := by
  refine ⟨?_, ?_, ?_, ?_⟩ <;> simp [startsWithStr, tableRowMatch, hd, isPre]

/-- On a heading line (outside a code block), `step` flushes paragraph and
list (after the fall-through table and blockquote flushes) and then either
silently drops the heading — exactly when `skipCond` holds — or emits it. -/
theorem step_heading (k : Option String) (s : PState) (line : String)
    (level : Nat) (raw : String)
    (hc : s.inCodeBlock = false) (hm : headingMatch line = some (level, raw)) :
    step k s line =
      (if skipCond k (flushList (flushParagraph (flushBlockquote (flushTable s)))) level raw then
        { flushList (flushParagraph (flushBlockquote (flushTable s))) with skippedFirstH1 := true }
      else
        { flushList (flushParagraph (flushBlockquote (flushTable s))) with
          headings := (flushList (flushParagraph (flushBlockquote (flushTable s)))).headings ++
            [⟨level, stripInline raw, slugify (stripInline raw)⟩]
          elements := (flushList (flushParagraph (flushBlockquote (flushTable s)))).elements ++
            [Block.heading level (slugify (stripInline raw)) raw] }) := by
  obtain ⟨cs, hd⟩ := headingMatch_head line level raw hm
  obtain ⟨h1, h2, h3, h4⟩ := heading_not_other line cs hd
  unfold step
  simp only [h1, h2, h3, h4, hc, hm, Bool.false_eq_true, if_false, Bool.and_false,
    Bool.false_and, Bool.and_self]

/-- `skipCond` only reads the skip flag from the state, which the flushes
preserve. -/
@[simp] theorem skipCond_flushes (k : Option String) (s : PState) (level : Nat) (raw : String) :
    skipCond k (flushList (flushParagraph (flushBlockquote (flushTable s)))) level raw
      = skipCond k s level raw := by
  simp [skipCond]

/-- The skip flag is never reset by any line. -/
theorem step_skipped_mono (k : Option String) (s : PState) (line : String)
    (h : s.skippedFirstH1 = true) : (step k s line).skippedFirstH1 = true := by
  unfold step
  repeat' split
  all_goals simp_all [apply_ite PState.skippedFirstH1]

/-! The feature flags track exactly the closed fenced code blocks. -/

/-- Whether a language tag triggers the syntax-highlighting flag: any tag
other than `mermaid` that is nonempty. -/
def prismTag (l : String) : Bool := decide (l ≠ "mermaid") && decide (l ≠ "")

/-- Invariant of the line loop: after processing any list of lines, the two
feature flags equal their incoming values disjoined with the presence of a
`mermaid` tag (resp. of another nonempty tag) among the fenced blocks closed
while processing those lines, started from the state's current fence status. -/
theorem fence_flags_inv (k : Option String) (ls : List String) :
    ∀ s : PState,
      ((ls.foldl (step k) s).hasMermaid
        = (s.hasMermaid
            || (fenceScan (if s.inCodeBlock then some s.codeLang else none) ls).contains "mermaid"))
      ∧ ((ls.foldl (step k) s).hasPrism
        = (s.hasPrism
            || (fenceScan (if s.inCodeBlock then some s.codeLang else none) ls).any prismTag)) := by
  induction ls with
  | nil => intro s; simp [fenceScan]
  | cons l ls ih =>
    intro s
    rw [List.foldl_cons]
    by_cases hf : startsWithStr "```" l = true
    · by_cases hc : s.inCodeBlock = true
      · obtain ⟨e1, e2, e3⟩ := step_fence_close k s l hf hc
        obtain ⟨i1, i2⟩ := ih (step k s l)
        rw [i1, i2, e1, e2, e3, hc]
        simp [fenceScan, hf, prismTag, Bool.or_assoc, eq_comm]
      · have hc' : s.inCodeBlock = false := by simpa using hc
        obtain ⟨e1, e2, e3, e4⟩ := step_fence_open k s l hf hc'
        obtain ⟨i1, i2⟩ := ih (step k s l)
        rw [i1, i2, e1, e2, e3, e4, hc']
        simp [fenceScan, hf]
    · have hf' : startsWithStr "```" l = false := by simpa using hf
      by_cases hc : s.inCodeBlock = true
      · rw [step_incode k s l hf' hc]
        obtain ⟨i1, i2⟩ := ih { s with codeContent := s.codeContent ++ [l] }
        rw [i1, i2]
        simp [fenceScan, hc, hf']
      · have hc' : s.inCodeBlock = false := by simpa using hc
        obtain ⟨e1, e2, e3, e4, _⟩ := step_nonfence_frame k s l hf' hc'
        obtain ⟨i1, i2⟩ := ih (step k s l)
        rw [i1, i2, e1, e2, e3, e4, hc']
        simp [fenceScan, hf']

/-! The frontmatter metadata object: property lookup after the building loop. -/

theorem lookupMeta_upsert (m : List (String × String)) (a b k : String) :
    lookupMeta (upsert m a b) k = if a = k then some b else lookupMeta m k := by
  induction m with
  | nil => simp [upsert, lookupMeta]
  | cons p ps ih =>
    by_cases hpa : p.1 = a
    · by_cases hak : a = k
      · simp [upsert, hpa, lookupMeta, hak]
      · have hpk : ¬ p.1 = k := by rw [hpa]; exact hak
        simp [upsert, hpa, lookupMeta, hak, hpk]
    · by_cases hpk : p.1 = k
      · have hak : ¬ a = k := fun e => hpa (by rw [e, hpk])
        have hka : ¬ k = a := fun e => hak e.symm
        simp [upsert, hpa, lookupMeta, hak, hka, hpk]
      · by_cases hak : a = k <;>
          simpa [upsert, hpa, lookupMeta, hak, hpk] using ih
  
theorem lookupMeta_foldl (k : String) (ps : List (String × String)) :
    ∀ m, lookupMeta (ps.foldl (fun m kv => upsert m kv.1 kv.2) m) k
      = ((ps.reverse.find? (fun p => p.1 = k)).map (·.2)).or (lookupMeta m k) := by
  induction ps with
  | nil => intro m; simp
  | cons p ps ih =>
    intro m
    rw [List.foldl_cons, ih, List.reverse_cons, List.find?_append]
    cases hf : ps.reverse.find? (fun q => decide (q.1 = k)) with
    | some q => simp [Option.or]
    | none =>
      by_cases hpk : p.1 = k <;>
        simp [Option.or, List.find?_cons, hpk, lookupMeta_upsert]
  
/-- The metadata loop is the fold of property assignment over the parsed
`key: value` pairs of the block, in order. -/
theorem metaOf_eq_foldl (ls : List String) :
    metaOf ls = (ls.filterMap parseMetaLine).foldl (fun m kv => upsert m kv.1 kv.2) [] := by
  have H : ∀ (ls : List String) (m : List (String × String)),
      ls.foldl
        (fun m l =>
          match parseMetaLine l with
          | some kv => upsert m kv.1 kv.2
          | none => m)
        m
      = (ls.filterMap parseMetaLine).foldl (fun m kv => upsert m kv.1 kv.2) m := by
    intro ls
    induction ls with
    | nil => intro m; rfl
    | cons l ls ih =>
      intro m
      cases hp : parseMetaLine l <;>
        simp [List.filterMap_cons, hp, ih]
  exact H ls []
  
/-! Identity of the inline-marker stripping on marker-free text. -/

theorem replacePairF_id (c0 : Char) (d : List Char) (p : Char → Bool) :
    ∀ (f : Nat) (s : List Char), (∀ ch ∈ s, ch ≠ c0) → replacePairF (c0 :: d) p f s = s := by
  intro f
  induction f with
  | zero => intro s _; rfl
  | succ f ih =>
    intro s hs
    cases s with
    | nil => rfl
    | cons c rest =>
      have hc : ¬ (c0 = c) := fun e => hs c (by simp) e.symm
      have hpre : isPre (c0 :: d) (c :: rest) = false := by
        simp [isPre, hc]
      rw [replacePairF, hpre]
      simp only [Bool.false_eq_true, if_false]
      exact congrArg (c :: ·) (ih rest (fun ch h => hs ch (by simp [h])))
  
/-- On a string containing none of the five marker characters, every stripping
pass is the identity. -/
theorem stripInline_of_markerFree (s : String)
    (h : ∀ c ∈ s.data, c ≠ '*' ∧ c ≠ '_' ∧ c ≠ btick ∧ c ≠ '~' ∧ c ≠ '=') :
    stripInline s = s := by
  have hs : ∀ c ∈ s.data, c ≠ '*' := fun c hc => (h c hc).1
  have hu : ∀ c ∈ s.data, c ≠ '_' := fun c hc => (h c hc).2.1
  have hb : ∀ c ∈ s.data, c ≠ btick := fun c hc => (h c hc).2.2.1
  have ht : ∀ c ∈ s.data, c ≠ '~' := fun c hc => (h c hc).2.2.2.1
  have he : ∀ c ∈ s.data, c ≠ '=' := fun c hc => (h c hc).2.2.2.2
  obtain ⟨l⟩ := s
  unfold stripInline
  simp only [replacePair]
  rw [replacePairF_id '*' _ _ _ _ hs, replacePairF_id '*' _ _ _ _ hs,
    replacePairF_id '_' _ _ _ _ hu, replacePairF_id '*' _ _ _ _ hs,
    replacePairF_id '_' _ _ _ _ hu, replacePairF_id btick _ _ _ _ hb,
    replacePairF_id '~' _ _ _ _ ht, replacePairF_id '=' _ _ _ _ he]
  
/-! The slug pipeline restated in the specification's vocabulary, and the
equivalence proof. -/

/-- `slugify` as §4.2 of the specification words it, amended so that hyphens
are also kept: lowercase; strip characters that are not alphanumeric,
underscore, whitespace, or hyphen; replace whitespace by hyphens and collapse
consecutive hyphens to one; trim leading and trailing hyphens. -/
def slugifySpecC9 (text : String) : String :=
  let lowered := text.data.map jsToLower
  let kept := lowered.filter (fun c => isWordCh c || isJsWs c || c = '-')
  let hy := collapseHyphens false (kept.map (fun c => if isJsWs c then '-' else c))
  ⟨dropTrailWhile (fun c => c = '-') (hy.dropWhile (fun c => c = '-'))⟩

/-- `slugify` as claim C9 literally words it: the kept character set is only
alphanumerics, underscore, and whitespace — hyphens stripped. -/
def slugifySpecC9Lit (text : String) : String :=
  let lowered := text.data.map jsToLower
  let kept := lowered.filter (fun c => isWordCh c || isJsWs c)
  let hy := collapseHyphens false (kept.map (fun c => if isJsWs c then '-' else c))
  ⟨dropTrailWhile (fun c => c = '-') (hy.dropWhile (fun c => c = '-'))⟩

/-- Collapsing hyphen runs after turning whitespace runs into single hyphens
is the same as collapsing after turning every whitespace character into a
hyphen, provided the incoming flags are compatible (a pending whitespace run
implies a pending hyphen). -/
theorem collapse_wsRuns (l : List Char) : ∀ (bw bh : Bool), (bw = true → bh = true) →
    collapseHyphens bh (wsRunsToHyphen bw l)
      = collapseHyphens bh (l.map (fun c => if isJsWs c then '-' else c)) := by
  induction l with
  | nil => intro bw bh _; rfl
  | cons c cs ih =>
    intro bw bh hcompat
    by_cases hws : isJsWs c = true
    · cases bw with
      | true =>
        have hbh : bh = true := hcompat rfl
        subst hbh
        simp only [wsRunsToHyphen, hws, if_true, List.map_cons, collapseHyphens]
        exact ih true true (fun _ => rfl)
      | false =>
        cases bh with
        | true =>
          simp only [wsRunsToHyphen, hws, if_true, List.map_cons, collapseHyphens]
          exact ih true true (fun _ => rfl)
        | false =>
          simp only [wsRunsToHyphen, hws, if_true, List.map_cons, collapseHyphens]
          exact congrArg ('-' :: ·) (ih true true (fun _ => rfl))
    · have hws' : isJsWs c = false := by simpa using hws
      by_cases hd : c = '-'
      · cases bh with
        | true =>
          simp only [wsRunsToHyphen, hws', Bool.false_eq_true, if_false, List.map_cons,
            collapseHyphens, hd, if_true]
          exact ih false true (by simp)
        | false =>
          simp only [wsRunsToHyphen, hws', Bool.false_eq_true, if_false, List.map_cons,
            collapseHyphens, hd, if_true]
          exact congrArg ('-' :: ·) (ih false true (by simp))
      · simp only [wsRunsToHyphen, hws', Bool.false_eq_true, if_false, List.map_cons,
          collapseHyphens, hd]
        exact congrArg (c :: ·) (ih false false (by simp))

/-- Every character emitted by the whitespace-to-hyphen pass is a hyphen or a
non-whitespace input character; in particular it is not whitespace. -/
theorem wsRuns_noWs (l : List Char) : ∀ (b : Bool), ∀ c ∈ wsRunsToHyphen b l, isJsWs c = false := by
  induction l with
  | nil => intro b c h; simp [wsRunsToHyphen] at h
  | cons a cs ih =>
    intro b c h
    by_cases hws : isJsWs a = true
    · cases b with
      | true =>
        rw [wsRunsToHyphen, hws, if_pos rfl] at h
        exact ih true c h
      | false =>
        rw [wsRunsToHyphen, hws, if_pos rfl] at h
        simp only [Bool.false_eq_true, if_false, List.mem_cons] at h
        rcases h with h | h
        · subst h; decide
        · exact ih true c h
    · have hws' : isJsWs a = false := by simpa using hws
      rw [wsRunsToHyphen, hws'] at h
      simp only [Bool.false_eq_true, if_false, List.mem_cons] at h
      rcases h with h | h
      · subst h; exact hws'
      · exact ih false c h

/-- Collapsing hyphens emits only hyphens and input characters; whitespace
freedom is preserved. -/
theorem collapse_noWs (l : List Char) : ∀ (b : Bool), (∀ c ∈ l, isJsWs c = false) →
    ∀ c ∈ collapseHyphens b l, isJsWs c = false := by
  induction l with
  | nil => intro b _ c h; simp [collapseHyphens] at h
  | cons a cs ih =>
    intro b hl c h
    by_cases hd : a = '-'
    · cases b with
      | true =>
        rw [collapseHyphens, hd, if_pos rfl, if_pos rfl] at h
        exact ih true (fun x hx => hl x (by simp [hx])) c h
      | false =>
        rw [collapseHyphens, hd, if_pos rfl] at h
        simp only [Bool.false_eq_true, if_false, List.mem_cons] at h
        rcases h with h | h
        · subst h; decide
        · exact ih true (fun x hx => hl x (by simp [hx])) c h
    · rw [collapseHyphens, if_neg hd] at h
      simp only [List.mem_cons] at h
      rcases h with h | h
      · subst h; exact hl c (by simp)
      · exact ih false (fun x hx => hl x (by simp [hx])) c h

/-- `dropWhile` is the identity when no element satisfies the predicate. -/
theorem dropWhile_of_neg (p : Char → Bool) (l : List Char) (h : ∀ c ∈ l, p c = false) :
    l.dropWhile p = l := by
  cases l with
  | nil => rfl
  | cons a t => simp [List.dropWhile_cons, h a (by simp)]

/-- `trim` is the identity on whitespace-free text. -/
theorem jsTrimList_id (l : List Char) (h : ∀ c ∈ l, isJsWs c = false) : jsTrimList l = l := by
  unfold jsTrimList
  rw [dropWhile_of_neg _ _ h,
    dropWhile_of_neg _ _ (fun c hc => h c (List.mem_reverse.mp hc)),
    List.reverse_reverse]

/-- No two adjacent hyphens. -/
def noDH : List Char → Bool
  | [] => true
  | a :: t =>
    (match t.head? with
     | some b => !(a = '-' && b = '-')
     | none => true) && noDH t

theorem noDH_cons (a : Char) (t : List Char) :
    noDH (a :: t)
      = ((match t.head? with
          | some b => !(a = '-' && b = '-')
          | none => true) && noDH t) := rfl

/-- The tail of a hyphen-run-free list is hyphen-run-free. -/
theorem noDH_tail (a : Char) (l : List Char) (h : noDH (a :: l) = true) : noDH l = true := by
  rw [noDH_cons, Bool.and_eq_true] at h
  exact h.2

/-- A suffix of a hyphen-run-free list is hyphen-run-free. -/
theorem noDH_suffix (t l : List Char) (h : noDH (t ++ l) = true) : noDH l = true := by
  induction t with
  | nil => exact h
  | cons a t ih => exact ih (noDH_tail a _ h)

/-- `dropWhile` preserves hyphen-run freedom. -/
theorem noDH_dropWhile (p : Char → Bool) (l : List Char) (h : noDH l = true) :
    noDH (l.dropWhile p) = true :=
  noDH_suffix (l.takeWhile p) _ (by rw [List.takeWhile_append_dropWhile]; exact h)

/-- The hyphen-collapsing pass produces no adjacent hyphens, and starting with
a pending hyphen it never emits a leading hyphen. -/
theorem collapse_noDH (l : List Char) : ∀ (b : Bool),
    noDH (collapseHyphens b l) = true
      ∧ (b = true → (collapseHyphens b l).head? ≠ some '-') := by
  induction l with
  | nil => intro b; exact ⟨rfl, fun _ => by simp [collapseHyphens]⟩
  | cons c cs ih =>
    intro b
    by_cases hd : c = '-'
    · subst hd
      cases b with
      | true =>
        have e : collapseHyphens true ('-' :: cs) = collapseHyphens true cs := by
          simp [collapseHyphens]
        rw [e]
        exact ⟨(ih true).1, fun _ => (ih true).2 rfl⟩
      | false =>
        have e : collapseHyphens false ('-' :: cs) = '-' :: collapseHyphens true cs := by
          simp [collapseHyphens]
        rw [e]
        refine ⟨?_, fun h => Bool.noConfusion h⟩
        rw [noDH_cons, Bool.and_eq_true]
        refine ⟨?_, (ih true).1⟩
        cases hX : (collapseHyphens true cs).head? with
        | none => rfl
        | some b' =>
          have hb' : ¬ b' = '-' := fun e' => (ih true).2 rfl (by rw [hX, e'])
          simp [hb']
    · have e : collapseHyphens b (c :: cs) = c :: collapseHyphens false cs := by
        simp [collapseHyphens, hd]
      rw [e]
      refine ⟨?_, fun _ => by simp [hd]⟩
      rw [noDH_cons, Bool.and_eq_true]
      refine ⟨?_, (ih false).1⟩
      cases hX : (collapseHyphens false cs).head? with
      | none => rfl
      | some b' => simp [hd]

/-- On a hyphen-run-free list, removing one leading hyphen removes the whole
(at most one-element) leading hyphen run. -/
theorem stripLead_eq_dropWhile (l : List Char) (h : noDH l = true) :
    stripLeadHyphen l = l.dropWhile (fun c => c = '-') := by
  cases l with
  | nil => rfl
  | cons c t =>
    by_cases hd : c = '-'
    · subst hd
      rw [stripLeadHyphen]
      simp only [List.head?_cons, if_pos rfl, List.tail_cons, List.dropWhile_cons,
        decide_True, if_pos rfl]
      cases t with
      | nil => rfl
      | cons b t' =>
        have hb : ¬ b = '-' := by
          rw [noDH_cons] at h
          simp only [List.head?_cons, Bool.and_eq_true, Bool.not_eq_true'] at h
          intro e
          rcases h with ⟨h1, _⟩
          simp [e] at h1
        rw [List.dropWhile_cons]
        simp [hb]
    · rw [stripLeadHyphen]
      simp [List.dropWhile_cons, hd]

/-- On a hyphen-run-free list, removing one trailing hyphen removes the whole
trailing hyphen run. -/
theorem stripTrail_eq_dropTrail (l : List Char) (h : noDH l = true) :
    stripTrailHyphen l = dropTrailWhile (fun c => c = '-') l := by
  induction l with
  | nil => rfl
  | cons a t ih =>
    cases t with
    | nil =>
      by_cases hd : a = '-' <;>
        simp [stripTrailHyphen, dropTrailWhile, hd]
    | cons b t' =>
      have ht : noDH (b :: t') = true := noDH_tail a _ h
      have iht := ih ht
      rw [dropTrailWhile]
      by_cases hL : (b :: t').getLast? = some '-'
      · have hstrip : stripTrailHyphen (b :: t') = (b :: t').dropLast := by
          rw [stripTrailHyphen, if_pos hL]
        rw [stripTrailHyphen, List.getLast?_cons_cons, if_pos hL, List.dropLast_cons₂]
        rw [← iht, hstrip]
        by_cases hnil : (b :: t').dropLast = []
        · have ht' : t' = [] := by
            cases t' with
            | nil => rfl
            | cons x xs => simp [List.dropLast_cons₂] at hnil
          subst ht'
          have hb : b = '-' := by
            simpa using hL
          have ha : ¬ a = '-' := by
            rw [noDH_cons] at h
            simp only [List.head?_cons, Bool.and_eq_true, Bool.not_eq_true'] at h
            intro e
            rcases h with ⟨h1, _⟩
            simp [e, hb] at h1
          simp [hnil, ha]
        · simp [hnil]
      · have hstrip : stripTrailHyphen (b :: t') = b :: t' := by
          rw [stripTrailHyphen, if_neg hL]
        rw [stripTrailHyphen, List.getLast?_cons_cons, if_neg hL]
        rw [← iht, hstrip]
        simp

/-- The source's slug pipeline coincides with the specification's description
of it (hyphens kept). -/
theorem slugify_eq_specC9 (s : String) : slugify s = slugifySpecC9 s := by
  simp only [slugify, slugifySpecC9]
  have hnws : ∀ c ∈ collapseHyphens false
      (wsRunsToHyphen false
        ((s.data.map jsToLower).filter (fun c => isWordCh c || isJsWs c || c = '-'))),
      isJsWs c = false :=
    collapse_noWs _ false (wsRuns_noWs _ false)
  have hnd : noDH (collapseHyphens false
      (wsRunsToHyphen false
        ((s.data.map jsToLower).filter (fun c => isWordCh c || isJsWs c || c = '-')))) = true :=
    (collapse_noDH _ false).1
  rw [jsTrimList_id _ hnws, stripLead_eq_dropWhile _ hnd, stripTrail_eq_dropTrail _
    (noDH_dropWhile _ _ hnd), collapse_wsRuns _ false false (by simp)]

/-! Remaining helpers for the claim theorems. -/

/-- The skip condition, read as a proposition. -/
theorem skipCond_iff (k : Option String) (s : PState) (level : Nat) (raw : String) :
    skipCond k s level raw = true
      ↔ (level = 1 ∧ s.skippedFirstH1 = false ∧ truthy k = true
          ∧ lowerStr (jsTrim (stripInline raw)) = lowerStr (k.getD "")) := by
  rw [skipCond]
  simp [and_assoc]

@[simp] theorem countHB_append (l1 l2 : List Block) :
    countHB (l1 ++ l2) = countHB l1 + countHB l2 :=
  List.countP_append _ _ _

@[simp] theorem countHB_paraPending (s : PState) : countHB (paraPending s) = 0 := by
  unfold paraPending
  split <;> rfl

@[simp] theorem countHB_listPending (s : PState) : countHB (listPending s) = 0 := by
  unfold listPending
  split <;> rfl

@[simp] theorem countHB_bqPending (s : PState) : countHB (bqPending s) = 0 := by
  unfold bqPending
  split <;> rfl

@[simp] theorem countHB_tablePending (s : PState) : countHB (tablePending s) = 0 := by
  unfold tablePending
  split <;> rfl

/-! The claims. -/

/-- C1, counterexample: the word-count of `"**bold** word ~~x~~"` is not 2 —
stripping the tildes of `~~x~~` leaves the token `x`, which is counted. -/
theorem c1_countWords_counterexample : countWords "**bold** word ~~x~~" ≠ 2 := by
  decide

/-- C1, amended: the word-count function removes fenced code block contents,
replaces the fixed markdown punctuation set with spaces, splits on whitespace
and counts non-empty tokens; on `"**bold** word ~~x~~"` it returns 3 (the
tokens `bold`, `word`, `x`); without the `~~x~~` the count is 2. -/
theorem c1_countWords_amended :
    countWords "**bold** word ~~x~~" = 3 ∧ countWords "**bold** word" = 2 := by
  decide

/-- C2, counterexample: processing a blank line while a list is open does not
leave the list state unchanged — the open list is flushed (emitted) by the
fall-through classification before the paragraph flush. -/
theorem c2_blank_counterexample :
    (step none initState "- a").inList = true
      ∧ (step none (step none initState "- a") "").inList = false
      ∧ (step none (step none initState "- a") "").elements
          = [Block.listB false [ListItem.plain "a"]] := by
  decide

/-- C2, amended: outside a code block, a blank line flushes the open table,
blockquote, and list as well as the paragraph buffer (blocks are appended in
that order); only the code-block state and the outline are untouched. -/
theorem c2_blank_amended (k : Option String) (s : PState) (hc : s.inCodeBlock = false) :
    (step k s "").inTable = false
      ∧ (step k s "").inBlockquote = false
      ∧ (step k s "").inList = false
      ∧ (step k s "").paragraphBuffer = []
      ∧ (step k s "").inCodeBlock = false
      ∧ (step k s "").codeContent = s.codeContent
      ∧ (step k s "").codeLang = s.codeLang
      ∧ (step k s "").hasMermaid = s.hasMermaid
      ∧ (step k s "").hasPrism = s.hasPrism
      ∧ (step k s "").headings = s.headings
      ∧ (step k s "").elements
          = s.elements ++ tablePending s ++ bqPending s ++ listPending s ++ paraPending s := by
  rw [step_blank k s hc]
  simp [hc]

/-- Witness for C2's amended theorem at the initial state. -/
theorem c2_blank_amended_witness :
    (step none initState "").inTable = false
      ∧ (step none initState "").inBlockquote = false
      ∧ (step none initState "").inList = false
      ∧ (step none initState "").paragraphBuffer = []
      ∧ (step none initState "").inCodeBlock = false
      ∧ (step none initState "").codeContent = initState.codeContent
      ∧ (step none initState "").codeLang = initState.codeLang
      ∧ (step none initState "").hasMermaid = initState.hasMermaid
      ∧ (step none initState "").hasPrism = initState.hasPrism
      ∧ (step none initState "").headings = initState.headings
      ∧ (step none initState "").elements
          = initState.elements ++ tablePending initState ++ bqPending initState
              ++ listPending initState ++ paraPending initState :=
  c2_blank_amended none initState rfl

/-- C3, counterexample: with the frontmatter lines `a: 1` and `a: 2`, the
extracted metadata binds `a` to `"2"` — the value of the last occurrence, not
the first. -/
theorem c3_frontmatter_counterexample :
    lookupMeta (extractFrontmatter "---\na: 1\na: 2\n---\nx").1 "a" = some "2"
      ∧ lookupMeta (extractFrontmatter "---\na: 1\na: 2\n---\nx").1 "a" ≠ some "1" := by
  decide

/-- C3, amended: for every list of frontmatter lines and every key, the
metadata loop binds the key to the value of the *last* `key: value` line for
that key (later assignments overwrite earlier ones). -/
theorem c3_frontmatter_amended (ls : List String) (k : String) :
    lookupMeta (metaOf ls) k
      = ((ls.filterMap parseMetaLine).reverse.find? (fun p => p.1 = k)).map (·.2) := by
  rw [metaOf_eq_foldl, lookupMeta_foldl]
  simp [lookupMeta]

/-- C4: the `hasMermaid` flag of a parse is set iff some fenced code block of
the document carries the language tag `mermaid` exactly, and `hasPrism` is
set iff some fenced code block carries another nonempty tag; a block with an
empty tag sets neither, and an unterminated fence yields no closed block. -/
theorem c4_feature_flags (md : String) (k : Option String) :
    (markdownToReactElements md k).hasMermaid = (fencedLangs md).contains "mermaid"
      ∧ (markdownToReactElements md k).hasPrism = (fencedLangs md).any prismTag := by
  obtain ⟨i1, i2⟩ := fence_flags_inv k (splitChar '\n' md) initState
  unfold markdownToReactElements fencedLangs
  simp only [mkResult, finalizeState_hasMermaid, finalizeState_hasPrism]
  rw [i1, i2]
  exact ⟨rfl, rfl⟩

/-- C5, counterexample: the inline-marker stripping function is not
idempotent — on `"~~~~a~~~~"` one application yields `"~~a~~"` (the strike
pass does not rescan the text it already passed), and a second application
yields `"a"`. -/
theorem c5_stripInline_counterexample :
    stripInline (stripInline "~~~~a~~~~") ≠ stripInline "~~~~a~~~~"
      ∧ stripInline "~~~~a~~~~" = "~~a~~"
      ∧ stripInline "~~a~~" = "a" := by
  decide

/-- C5, amended: the stripping function is the identity — hence idempotent —
on strings containing none of the marker characters `*`, `_`, backtick, `~`,
`=` (already-stripped plain text in the specification's sense).  Idempotence
fails in general, see the counterexample. -/
theorem c5_stripInline_amended (s : String)
    (h : ∀ c ∈ s.data, c ≠ '*' ∧ c ≠ '_' ∧ c ≠ btick ∧ c ≠ '~' ∧ c ≠ '=') :
    stripInline s = s ∧ stripInline (stripInline s) = stripInline s := by
  have e := stripInline_of_markerFree s h
  exact ⟨e, by rw [e]; exact e⟩

/-- Witness for C5's amended theorem. -/
theorem c5_stripInline_amended_witness :
    stripInline "plain text" = "plain text"
      ∧ stripInline (stripInline "plain text") = stripInline "plain text" :=
  c5_stripInline_amended "plain text" (by decide)

/-- C6, counterexample: in the document `# Foo` / `# Title` parsed with skip
title `Title`, the *second* level-1 heading is silently dropped even though it
is neither the first heading encountered nor the first level-1 heading — the
guard flag is only set by a successful drop, not by the first heading. -/
theorem c6_skip_title_counterexample :
    (markdownToReactElements "# Foo\n# Title" (some "Title")).headings
        = [⟨1, "Foo", "foo"⟩]
      ∧ (markdownToReactElements "# Foo\n# Title" (some "Title")).elements
        = [Block.heading 1 "foo" "Foo"] := by
  decide

/-- C6, amended: a heading line is silently dropped (its outline entry not
appended) exactly when it is level 1, no heading has been dropped yet, a
truthy skip-title was supplied, and the stripped trimmed text matches it
case-insensitively — regardless of how many headings (of any level) or
non-matching level-1 headings came before; the drop happens at most once
because the flag is set by the drop and never reset. -/
theorem c6_skip_title_amended :
    (∀ (k : Option String) (s : PState) (line : String) (level : Nat) (raw : String),
      s.inCodeBlock = false → headingMatch line = some (level, raw) →
        ((step k s line).headings = s.headings
          ↔ (level = 1 ∧ s.skippedFirstH1 = false ∧ truthy k = true
              ∧ lowerStr (jsTrim (stripInline raw)) = lowerStr (k.getD ""))))
    ∧ (∀ (k : Option String) (s : PState) (line : String),
        s.skippedFirstH1 = true → (step k s line).skippedFirstH1 = true) := by
  constructor
  · intro k s line level raw hc hm
    rw [step_heading k s line level raw hc hm]
    rw [← skipCond_iff k s level raw]
    by_cases hsk : skipCond k s level raw = true
    · rw [if_pos (by rwa [skipCond_flushes]), hsk]
      simp
    · rw [if_neg (by rwa [skipCond_flushes])]
      simp only [hsk]
      constructor
      · intro h
        exfalso
        simp at h
      · intro h
        cases h
  · intro k s line h
    exact step_skipped_mono k s line h

/-- Witness for C6's amended theorem on a concrete matching heading. -/
theorem c6_skip_title_amended_witness :
    (step (some "Title") initState "# Title").headings = initState.headings
      ↔ (1 = 1 ∧ initState.skippedFirstH1 = false ∧ truthy (some "Title") = true
          ∧ lowerStr (jsTrim (stripInline "Title")) = lowerStr ((some "Title").getD "")) :=
  c6_skip_title_amended.1 (some "Title") initState "# Title" 1 "Title" rfl (by decide)

/-- C7: at end of input the parser flushes, in order, paragraph, list,
blockquote, table (and only those — flags, outline and fence state are
untouched); an open code block is never implicitly closed, so the accumulated
lines of an unterminated fence are invisible in the result: they emit no
block and set no flag. -/
theorem c7_end_of_input :
    (∀ s : PState,
        (finalizeState s).elements
          = s.elements ++ paraPending s ++ listPending s ++ bqPending s ++ tablePending s
        ∧ (finalizeState s).hasMermaid = s.hasMermaid
        ∧ (finalizeState s).hasPrism = s.hasPrism
        ∧ (finalizeState s).headings = s.headings
        ∧ (finalizeState s).inCodeBlock = s.inCodeBlock)
    ∧ (∀ (k : Option String) (s : PState) (suffix : List String),
        s.inCodeBlock = true → (∀ l ∈ suffix, startsWithStr "```" l = false) →
          mkResult (finalizeState (suffix.foldl (step k) s)) = mkResult (finalizeState s)) := by
  constructor
  · intro s
    refine ⟨?_, ?_, ?_, ?_, ?_⟩ <;> simp
  · intro k s suffix
    induction suffix generalizing s with
    | nil => intro _ _; rfl
    | cons l ls ih =>
      intro hc hfa
      rw [List.foldl_cons, step_incode k s l (hfa l (by simp)) hc]
      rw [ih { s with codeContent := s.codeContent ++ [l] } (by simpa using hc)
        (fun l' hl' => hfa l' (by simp [hl']))]
      exact mkResult_finalize_codeContent s (s.codeContent ++ [l])

/-- Witness for C7: an unterminated `js` fence whose dangling line is
invisible in the result. -/
theorem c7_end_of_input_witness :
    mkResult (finalizeState (["lost words"].foldl (step none) (step none initState "```js")))
      = mkResult (finalizeState (step none initState "```js")) :=
  c7_end_of_input.2 none (step none initState "```js") ["lost words"] (by decide) (by decide)

/-- C8: the three lines `|A|B|C|`, `|:---|:---:|---:|`, `|1|2|3|` parse to a
single table block with headers `A B C`, alignments left/center/right, and
exactly one body row of three cells; the separator row is not emitted as a
row. -/
theorem c8_table_roundtrip :
    (markdownToReactElements "|A|B|C|\n|:---|:---:|---:|\n|1|2|3|" none).elements
      = [Block.table ["A", "B", "C"] ["left", "center", "right"] [["1", "2", "3"]]] := by
  decide

/-- C9, counterexample: `slugify` does not strip characters outside the set
alphanumeric/underscore/whitespace, as the claim words it — the hyphen is also
kept: on `"a-b"` the code yields `"a-b"`, while the claim's literal pipeline
yields `"ab"`. -/
theorem c9_slugify_counterexample :
    slugify "a-b" = "a-b"
      ∧ slugifySpecC9Lit "a-b" = "ab"
      ∧ slugify "a-b" ≠ slugifySpecC9Lit "a-b" := by
  decide

/-- C9, amended: the slug generator is a total deterministic function that
lowercases, strips characters that are not alphanumeric, underscore,
whitespace, *or hyphen*, collapses whitespace runs and hyphen runs to single
hyphens, and trims edge hyphens (the specification pipeline, with hyphens
kept); the heading text `"API v2.0 — Overview!"` yields the slug
`"api-v20-overview"`, made only of lowercase letters, digits and hyphens with
no repeated and no edge hyphens. -/
theorem c9_slugify_amended :
    (∀ s : String, slugify s = slugifySpecC9 s)
      ∧ slugify "API v2.0 — Overview!" = "api-v20-overview" :=
  ⟨slugify_eq_specC9, by decide⟩

/-- C10: a heading dropped by the skip-title match is omitted from the
outline and emits no heading block; concretely, a document whose first H1
matches the supplied title has a 2-entry outline (no table of contents,
threshold 3) where the same document parsed without a skip title has 3
entries. -/
theorem c10_skip_title_outline :
    (∀ (k : Option String) (s : PState) (line : String) (level : Nat) (raw : String),
        s.inCodeBlock = false → headingMatch line = some (level, raw) →
        skipCond k s level raw = true →
          (step k s line).headings = s.headings
            ∧ countHB (step k s line).elements = countHB s.elements)
    ∧ hasToc "# T\n## Alpha\n## Beta" "T" = false
    ∧ (markdownToReactElements "# T\n## Alpha\n## Beta" (some "T")).headings.length = 2
    ∧ (markdownToReactElements "# T\n## Alpha\n## Beta" none).headings.length = 3 := by
  refine ⟨?_, by decide, by decide, by decide⟩
  intro k s line level raw hc hm hskip
  rw [step_heading k s line level raw hc hm, if_pos (by rwa [skipCond_flushes])]
  constructor
  · simp
  · simp

/-- Witness for C10 on a concrete matching first heading. -/
theorem c10_skip_title_outline_witness :
    (step (some "T") initState "# T").headings = initState.headings
      ∧ countHB (step (some "T") initState "# T").elements = countHB initState.elements :=
  c10_skip_title_outline.1 (some "T") initState "# T" 1 "T" rfl (by decide) (by decide)

end Publish
